import Mathlib

/-!
Verification of the archiver repository's directory builder and tree walker.

The embedded code comes from `src/gdrive.py`:
* `_parse_mime_type` maps a raw Google mime-type tag to the `MimeType` enum;
* `_build_tree` (with its inner `_helper` loop) turns the flat listing of
  `_GoogleApiFile` records into a rooted `GoogleDriveFile` tree;
* `get_directory` looks up the root record by name and builds the tree,
  printing an error and exiting with a non-zero status when the root is
  absent (modelled here as `Except.error (ArchiverError.RootNotFound _)`);
* `walk_tree` performs a pre-order traversal invoking a callback on every
  node (the callback's side effects are modelled by explicit state passing).

The Python `_helper` recursion is not structurally decreasing (it rescans the
whole record list at every folder), so the embedding adds an explicit fuel
argument that decreases at each descent; `_build_tree` instantiates the fuel
with `files.length + 1`, and the development proves that under acyclicity of
the parent-pointer graph any fuel larger than `files.length` computes the
same tree, which is the termination statement for the original recursion.
-/

/-- The `MimeType` enum of `gdrive.py`. -/
inductive MimeType where
  | Folder
  | Document
  | OtherFile
deriving DecidableEq

/-- The `GoogleDriveFile` frozen dataclass of `gdrive.py`: one node of the
built tree. -/
structure GoogleDriveFile where
  id : String
  name : String
  mime : MimeType
  path : String
  children : List GoogleDriveFile

/-- The `_GoogleApiFile` frozen dataclass of `gdrive.py`: one flat record of
the remote listing. -/
structure _GoogleApiFile where
  id : String
  name : String
  mime_type : String
  parents : List String
deriving DecidableEq

mutual

/-- Decidable equality on tree nodes (the automatic deriving does not handle
the nested `List` field). -/
def fileDecEq : (a b : GoogleDriveFile) → Decidable (a = b)
  | ⟨i1, n1, m1, p1, c1⟩, ⟨i2, n2, m2, p2, c2⟩ =>
    match decEq i1 i2, decEq n1 n2, decEq m1 m2, decEq p1 p2, fileListDecEq c1 c2 with
    | isTrue h1, isTrue h2, isTrue h3, isTrue h4, isTrue h5 =>
      isTrue (by subst h1 h2 h3 h4 h5; rfl)
    | isFalse h1, _, _, _, _ => isFalse (by intro h; cases h; exact h1 rfl)
    | _, isFalse h2, _, _, _ => isFalse (by intro h; cases h; exact h2 rfl)
    | _, _, isFalse h3, _, _ => isFalse (by intro h; cases h; exact h3 rfl)
    | _, _, _, isFalse h4, _ => isFalse (by intro h; cases h; exact h4 rfl)
    | _, _, _, _, isFalse h5 => isFalse (by intro h; cases h; exact h5 rfl)
termination_by a _ => sizeOf a

/-- Decidable equality on lists of tree nodes. -/
def fileListDecEq : (a b : List GoogleDriveFile) → Decidable (a = b)
  | [], [] => isTrue rfl
  | [], _ :: _ => isFalse (by intro h; cases h)
  | _ :: _, [] => isFalse (by intro h; cases h)
  | a :: as, b :: bs =>
    match fileDecEq a b, fileListDecEq as bs with
    | isTrue h1, isTrue h2 => isTrue (by subst h1 h2; rfl)
    | isFalse h1, _ => isFalse (by intro h; cases h; exact h1 rfl)
    | _, isFalse h2 => isFalse (by intro h; cases h; exact h2 rfl)
termination_by a _ => sizeOf a

end

instance : DecidableEq GoogleDriveFile := fileDecEq

/-- `_parse_mime_type` from `gdrive.py`: the folder tag maps to `Folder`, the
document tag to `Document`, everything else to `OtherFile`. -/
def _parse_mime_type (mime_type : String) : MimeType :=
  if mime_type = "application/vnd.google-apps.folder" then
    MimeType.Folder
  else if mime_type = "application/vnd.google-apps.document" then
    MimeType.Document
  else
    MimeType.OtherFile

/-- The `for file in files` loop body of `_helper` in `gdrive.py`: scans the
record list in order, keeps records whose `parents` contain `parent` and
whose kind is not `OtherFile`, and builds the node; the recursive descent
into a folder's children is abstracted as the `recurse` argument. -/
def _helper_go (recurse : String → String → List GoogleDriveFile) :
    List _GoogleApiFile → String → String → List GoogleDriveFile
  | [], _, _ => []
  | f :: rest, path, parent =>
    if parent ∈ f.parents then
      if _parse_mime_type f.mime_type = MimeType.OtherFile then
        _helper_go recurse rest path parent
      else
        GoogleDriveFile.mk f.id f.name (_parse_mime_type f.mime_type) path
          (if _parse_mime_type f.mime_type = MimeType.Folder then
            recurse (path ++ "/" ++ f.name) f.id
          else []) ::
          _helper_go recurse rest path parent
    else
      _helper_go recurse rest path parent

/-- The inner `_helper` of `_build_tree` in `gdrive.py`. The Python function
recurses without a structural bound; `fuel` bounds the recursion depth and is
a pure totalization device: on exhaustion the function returns `[]`, and
`helper_fuel_stable` below shows that under an acyclic parent graph every
fuel above `files.length` yields the same result, so the value computed with
the default fuel of `_build_tree` is the value of the Python recursion
whenever that recursion terminates. -/
def _helper (fuel : Nat) (files : List _GoogleApiFile) (path parent : String) :
    List GoogleDriveFile :=
  match fuel with
  | 0 => []
  | fuel + 1 => _helper_go (fun p q => _helper fuel files p q) files path parent

/-- `_build_tree` from `gdrive.py`: the root node is built directly from the
`root` record with kind forced to `Folder` and empty path; its children come
from `_helper` seeded with `path = root.name` and `parent = root.id`. -/
def _build_tree (files : List _GoogleApiFile) (root : _GoogleApiFile) : GoogleDriveFile :=
  GoogleDriveFile.mk root.id root.name MimeType.Folder ""
    (_helper (files.length + 1) files root.name root.id)

/-- The fatal error conditions of `gdrive.py`, which the Python code reports
by printing and calling `exit(1)`. -/
inductive ArchiverError where
  | RootNotFound (name : String)
deriving DecidableEq

/-- The pure part of `Service.get_directory` from `gdrive.py`: the paginated
listing is modelled as the flat `files` input; the root is the first record
whose name equals `root_name` (`next(...)` over a filtering generator), and
when none matches the print-and-`exit(1)` behaviour is modelled as
`Except.error`. -/
def get_directory (files : List _GoogleApiFile) (root_name : String) :
    Except ArchiverError GoogleDriveFile :=
  match files.find? (fun f => f.name == root_name) with
  | none => Except.error (ArchiverError.RootNotFound root_name)
  | some root => Except.ok (_build_tree files root)

mutual

/-- `walk_tree` from `gdrive.py`: invoke the callback on the node, then walk
each child in order. The Python callback works by side effects; here it
threads an explicit state `s`. -/
def walk_tree (root : GoogleDriveFile) (callback : σ → GoogleDriveFile → σ) (s : σ) : σ :=
  walkChildren root.children callback (callback s root)
termination_by sizeOf root
decreasing_by cases root; simp

/-- The `for child in root.children` loop of `walk_tree`. -/
def walkChildren (cs : List GoogleDriveFile) (callback : σ → GoogleDriveFile → σ) (s : σ) : σ :=
  match cs with
  | [] => s
  | c :: rest => walkChildren rest callback (walk_tree c callback s)
termination_by sizeOf cs
decreasing_by all_goals (simp; try omega)

end

mutual

/-- Specification-side pre-order listing of the nodes of a tree: the node
itself, then the nodes of each child subtree in order. -/
def preorder (t : GoogleDriveFile) : List GoogleDriveFile :=
  t :: preorderList t.children
termination_by sizeOf t
decreasing_by cases t; simp

/-- Pre-order listing of a forest, one subtree after the other. -/
def preorderList : List GoogleDriveFile → List GoogleDriveFile
  | [] => []
  | c :: cs => preorder c ++ preorderList cs
termination_by l => sizeOf l
decreasing_by all_goals (simp; try omega)

end

mutual

/-- All parent-child node pairs of a tree: `(t, c)` for each direct child
`c`, together with the pairs of every subtree. -/
def parentChildPairs (t : GoogleDriveFile) : List (GoogleDriveFile × GoogleDriveFile) :=
  t.children.map (fun c => (t, c)) ++ pairsList t.children
termination_by sizeOf t
decreasing_by cases t; simp

/-- Parent-child pairs of a forest. -/
def pairsList : List GoogleDriveFile → List (GoogleDriveFile × GoogleDriveFile)
  | [] => []
  | c :: cs => parentChildPairs c ++ pairsList cs
termination_by l => sizeOf l
decreasing_by all_goals (simp; try omega)

end

mutual

/-- Height of a tree (number of nodes on a longest root-to-leaf path). -/
def depth (t : GoogleDriveFile) : Nat :=
  1 + depthList t.children
termination_by sizeOf t
decreasing_by cases t; simp

/-- Height of a forest. -/
def depthList : List GoogleDriveFile → Nat
  | [] => 0
  | c :: cs => max (depth c) (depthList cs)
termination_by l => sizeOf l
decreasing_by all_goals (simp; try omega)

end

mutual

/-- Number of occurrences of `x` among the nodes of the tree `t`. -/
def occCount (x t : GoogleDriveFile) : Nat :=
  (if x = t then 1 else 0) + occCountList x t.children
termination_by sizeOf t
decreasing_by cases t; simp

/-- Number of occurrences of `x` among the nodes of a forest. -/
def occCountList (x : GoogleDriveFile) : List GoogleDriveFile → Nat
  | [] => 0
  | c :: cs => occCount x c + occCountList x cs
termination_by l => sizeOf l
decreasing_by all_goals (simp; try omega)

end

/-- The `for child in root.children` loop of a fuel-bounded `walk_tree`, with
the descent abstracted as `recurse`; `none` signals fuel exhaustion and
aborts the traversal. -/
def walkChildrenGo (recurse : GoogleDriveFile → σ → Option σ) :
    List GoogleDriveFile → σ → Option σ
  | [], s => some s
  | c :: rest, s =>
    match recurse c s with
    | none => none
    | some s' => walkChildrenGo recurse rest s'

/-- Fuel-bounded version of `walk_tree`, used to state its termination:
`none` means the recursion-depth budget was exhausted. -/
def walkTreeFuel (callback : σ → GoogleDriveFile → σ) :
    Nat → GoogleDriveFile → σ → Option σ
  | 0, _, _ => none
  | fuel + 1, t, s =>
    walkChildrenGo (fun c s' => walkTreeFuel callback fuel c s') t.children (callback s t)

/-- A descending chain in the parent-pointer graph of the listing: starting
from parent id `p`, each chain element is a record of `files` that lists the
previous id among its `parents`. This is exactly the shape of the nested
calls `_helper` performs. -/
inductive ParentChain (files : List _GoogleApiFile) : String → List _GoogleApiFile → Prop where
  | nil {p : String} : ParentChain files p []
  | cons {p : String} {f : _GoogleApiFile} {l : List _GoogleApiFile} :
      f ∈ files → p ∈ f.parents → ParentChain files f.id l → ParentChain files p (f :: l)

/-- Acyclicity of the parent-pointer graph: no descending chain passes twice
through the same record; equivalently, no record is its own ancestor. -/
def ParentAcyclic (files : List _GoogleApiFile) : Prop :=
  ∀ p l, ParentChain files p l → l.Nodup

/-! ### Basic lemmas about the traversal lists -/

/-- Membership in the pre-order listing of a forest is membership in the
pre-order listing of one of its trees. -/
theorem mem_preorderList {n : GoogleDriveFile} :
    ∀ {cs : List GoogleDriveFile}, n ∈ preorderList cs ↔ ∃ c ∈ cs, n ∈ preorder c := by
  intro cs
  induction cs with
  | nil => simp [preorderList]
  | cons c rest ih => simp [preorderList, ih]

/-- A tree is the first element of its own pre-order listing. -/
theorem self_mem_preorder (t : GoogleDriveFile) : t ∈ preorder t := by
  rw [preorder]; exact List.mem_cons_self t _

/-- Membership in the parent-child pairs of a forest. -/
theorem mem_pairsList {pr : GoogleDriveFile × GoogleDriveFile} :
    ∀ {cs : List GoogleDriveFile}, pr ∈ pairsList cs ↔ ∃ c ∈ cs, pr ∈ parentChildPairs c := by
  intro cs
  induction cs with
  | nil => simp [pairsList]
  | cons c rest ih => simp [pairsList, ih]

/-- A string of the form `a ++ "/" ++ b` is never empty. -/
theorem append_slash_ne_empty (a b : String) : a ++ "/" ++ b ≠ "" := by
  intro h
  have hlen := congrArg String.length h
  simp [String.length_append] at hlen
  exact absurd hlen.1.2 (by decide)

/-! ### Provenance of the nodes built by the helper scan -/

/-- Characterization of a direct member of one `_helper_go` scan: it is built
from a record of the scanned list whose `parents` contain `parent` and whose
kind is not `OtherFile`, with the `path` argument as its path and children
produced by `recurse` exactly when the kind is `Folder`. -/
theorem mem_helper_go {recurse : String → String → List GoogleDriveFile}
    {path parent : String} {t : GoogleDriveFile} :
    ∀ {files : List _GoogleApiFile}, t ∈ _helper_go recurse files path parent →
      ∃ f ∈ files, parent ∈ f.parents ∧ _parse_mime_type f.mime_type ≠ MimeType.OtherFile ∧
        t = GoogleDriveFile.mk f.id f.name (_parse_mime_type f.mime_type) path
          (if _parse_mime_type f.mime_type = MimeType.Folder then
            recurse (path ++ "/" ++ f.name) f.id
          else []) := by
  intro files h
  induction files with
  | nil => simp [_helper_go] at h
  | cons f rest ih =>
    rw [_helper_go] at h
    by_cases hp : parent ∈ f.parents
    · simp only [hp, if_true] at h
      by_cases hm : _parse_mime_type f.mime_type = MimeType.OtherFile
      · simp only [hm, if_true] at h
        obtain ⟨g, hg, h1, h2, h3⟩ := ih h
        exact ⟨g, List.mem_cons_of_mem _ hg, h1, h2, h3⟩
      · simp only [hm, if_false] at h
        rcases List.mem_cons.mp h with h | h
        · exact ⟨f, List.mem_cons_self _ _, hp, hm, h⟩
        · obtain ⟨g, hg, h1, h2, h3⟩ := ih h
          exact ⟨g, List.mem_cons_of_mem _ hg, h1, h2, h3⟩
    · simp only [hp, if_false] at h
      obtain ⟨g, hg, h1, h2, h3⟩ := ih h
      exact ⟨g, List.mem_cons_of_mem _ hg, h1, h2, h3⟩

/-- The ids of the nodes produced by one `_helper_go` scan are exactly the
ids of the records that match the parent and survive the kind filter, in scan
order. -/
theorem map_id_helper_go {recurse : String → String → List GoogleDriveFile}
    {path parent : String} :
    ∀ {files : List _GoogleApiFile},
      (_helper_go recurse files path parent).map (fun n => n.id) =
        (files.filter (fun f =>
          decide (parent ∈ f.parents) &&
            !(_parse_mime_type f.mime_type == MimeType.OtherFile))).map (fun f => f.id) := by
  intro files
  induction files with
  | nil => simp [_helper_go]
  | cons f rest ih =>
    rw [_helper_go]
    by_cases hp : parent ∈ f.parents
    · by_cases hm : _parse_mime_type f.mime_type = MimeType.OtherFile
      · simp [hp, hm, List.filter_cons, ih]
      · simp [hp, hm, List.filter_cons, ih]
    · simp [hp, List.filter_cons, ih]

/-- Characterization of a direct member of `_helper`: it comes from a record
matching the parent, has the `path` argument as its path, and a non-`Folder`
member has no children. -/
theorem mem_helper {fuel : Nat} {files : List _GoogleApiFile} {path parent : String}
    {t : GoogleDriveFile} (h : t ∈ _helper fuel files path parent) :
    ∃ f ∈ files, t.id = f.id ∧ t.name = f.name ∧ t.mime = _parse_mime_type f.mime_type ∧
      t.mime ≠ MimeType.OtherFile ∧ t.path = path ∧ parent ∈ f.parents ∧
      (t.mime ≠ MimeType.Folder → t.children = []) := by
  match fuel with
  | 0 => simp [_helper] at h
  | fuel + 1 =>
    rw [_helper] at h
    obtain ⟨f, hf, hp, hm, ht⟩ := mem_helper_go h
    subst ht
    refine ⟨f, hf, rfl, rfl, rfl, hm, rfl, hp, ?_⟩
    intro hnf
    simp only [if_neg hnf]

/-- Characterization of the children of a direct `Folder` member of
`_helper`: they are `_helper` applied with one unit less fuel, the extended
path, and the member's id as parent. -/
theorem mem_helper_children {fuel : Nat} {files : List _GoogleApiFile} {path parent : String}
    {t : GoogleDriveFile} (h : t ∈ _helper (fuel + 1) files path parent)
    (hf : t.mime = MimeType.Folder) :
    t.children = _helper fuel files (path ++ "/" ++ t.name) t.id := by
  rw [_helper] at h
  obtain ⟨f, hfm, hp, hm, ht⟩ := mem_helper_go h
  subst ht
  simp only at hf ⊢
  rw [if_pos hf]

/-- Every node anywhere in a forest built by `_helper` is built from some
record of the listing: it inherits the record's id and name, its kind is the
parsed kind of the record, that kind is never `OtherFile`, and a
non-`Folder` node has no children. -/
theorem mem_preorderList_helper {files : List _GoogleApiFile} :
    ∀ (fuel : Nat) (path parent : String) (n : GoogleDriveFile),
      n ∈ preorderList (_helper fuel files path parent) →
      ∃ f ∈ files, n.id = f.id ∧ n.name = f.name ∧ n.mime = _parse_mime_type f.mime_type ∧
        n.mime ≠ MimeType.OtherFile ∧ (n.mime ≠ MimeType.Folder → n.children = []) := by
  intro fuel
  induction fuel with
  | zero => intro path parent n h; simp [_helper, preorderList] at h
  | succ fuel ih =>
    intro path parent n h
    obtain ⟨t, htmem, hn⟩ := mem_preorderList.mp h
    rw [preorder] at hn
    rcases List.mem_cons.mp hn with hn | hn
    · subst hn
      obtain ⟨f, hf, h1, h2, h3, h4, _, _, h5⟩ := mem_helper htmem
      exact ⟨f, hf, h1, h2, h3, h4, h5⟩
    · by_cases hfold : t.mime = MimeType.Folder
      · rw [mem_helper_children htmem hfold] at hn
        exact ih _ _ n hn
      · obtain ⟨f, hf, h1, h2, h3, h4, _, _, h5⟩ := mem_helper htmem
        rw [h5 hfold] at hn
        simp [preorderList] at hn

/-- The first component of a parent-child pair of a forest built by
`_helper` is itself a node of that forest. -/
theorem pairs_fst_mem_helper {files : List _GoogleApiFile} :
    ∀ (fuel : Nat) (path parent : String) (pr : GoogleDriveFile × GoogleDriveFile),
      pr ∈ pairsList (_helper fuel files path parent) →
      pr.1 ∈ preorderList (_helper fuel files path parent) := by
  intro fuel
  induction fuel with
  | zero => intro path parent pr h; simp [_helper, pairsList] at h
  | succ fuel ih =>
    intro path parent pr h
    obtain ⟨t, htmem, hpr⟩ := mem_pairsList.mp h
    rw [parentChildPairs] at hpr
    rcases List.mem_append.mp hpr with hpr | hpr
    · obtain ⟨c, _, hc⟩ := List.mem_map.mp hpr
      apply mem_preorderList.mpr
      refine ⟨t, htmem, ?_⟩
      rw [preorder]
      have : pr.1 = t := by rw [← hc]
      rw [this]
      exact List.mem_cons_self _ _
    · by_cases hfold : t.mime = MimeType.Folder
      · rw [mem_helper_children htmem hfold] at hpr
        have h1 := ih _ _ pr hpr
        rw [← mem_helper_children htmem hfold] at h1
        apply mem_preorderList.mpr
        refine ⟨t, htmem, ?_⟩
        rw [preorder]
        exact List.mem_cons_of_mem _ h1
      · obtain ⟨f, hf, _, _, _, _, _, _, h5⟩ := mem_helper htmem
        rw [h5 hfold] at hpr
        simp [pairsList] at hpr

/-- Every parent-child pair inside a forest built by `_helper` satisfies the
path recurrence: the child's path is the parent's path, a slash, and the
parent's name; the child is built from a record whose `parents` contain the
parent node's id. -/
theorem pairs_helper {files : List _GoogleApiFile} :
    ∀ (fuel : Nat) (path parent : String) (pr : GoogleDriveFile × GoogleDriveFile),
      pr ∈ pairsList (_helper fuel files path parent) →
      pr.2.path = pr.1.path ++ "/" ++ pr.1.name ∧
        ∃ f ∈ files, pr.2.id = f.id ∧ pr.2.name = f.name ∧
          pr.2.mime = _parse_mime_type f.mime_type ∧ pr.1.id ∈ f.parents := by
  intro fuel
  induction fuel with
  | zero => intro path parent pr h; simp [_helper, pairsList] at h
  | succ fuel ih =>
    intro path parent pr h
    obtain ⟨t, htmem, hpr⟩ := mem_pairsList.mp h
    rw [parentChildPairs] at hpr
    rcases List.mem_append.mp hpr with hpr | hpr
    · obtain ⟨c, hcmem, hc⟩ := List.mem_map.mp hpr
      have hpr1 : pr.1 = t := by rw [← hc]
      have hpr2 : pr.2 = c := by rw [← hc]
      subst hpr1 hpr2
      by_cases hfold : pr.1.mime = MimeType.Folder
      · rw [mem_helper_children htmem hfold] at hcmem
        obtain ⟨f, hf, h1, h2, h3, _, h6, h7, _⟩ := mem_helper hcmem
        obtain ⟨g, hg, hg1, hg2, _, _, hg5, _, _⟩ := mem_helper htmem
        constructor
        · rw [h6, hg5]
        · exact ⟨f, hf, h1, h2, h3, h7⟩
      · obtain ⟨f, hf, _, _, _, _, _, _, h5⟩ := mem_helper htmem
        rw [h5 hfold] at hcmem
        simp at hcmem
    · by_cases hfold : t.mime = MimeType.Folder
      · rw [mem_helper_children htmem hfold] at hpr
        exact ih _ _ pr hpr
      · obtain ⟨f, hf, _, _, _, _, _, _, h5⟩ := mem_helper htmem
        rw [h5 hfold] at hpr
        simp [pairsList] at hpr

/-- When `_helper` is seeded with a nonempty path, every node of the forest
it builds has a nonempty path. -/
theorem path_ne_empty_helper {files : List _GoogleApiFile} :
    ∀ (fuel : Nat) (path parent : String), path ≠ "" →
      ∀ n ∈ preorderList (_helper fuel files path parent), n.path ≠ "" := by
  intro fuel
  induction fuel with
  | zero => intro path parent _ n h; simp [_helper, preorderList] at h
  | succ fuel ih =>
    intro path parent hpath n h
    obtain ⟨t, htmem, hn⟩ := mem_preorderList.mp h
    rw [preorder] at hn
    rcases List.mem_cons.mp hn with hn | hn
    · subst hn
      obtain ⟨f, _, _, _, _, _, h6, _, _⟩ := mem_helper htmem
      rw [h6]; exact hpath
    · by_cases hfold : t.mime = MimeType.Folder
      · rw [mem_helper_children htmem hfold] at hn
        exact ih _ _ (append_slash_ne_empty _ _) n hn
      · obtain ⟨f, hf, _, _, _, _, _, _, h5⟩ := mem_helper htmem
        rw [h5 hfold] at hn
        simp [preorderList] at hn

/-! ### Walk and pre-order equivalence -/

/-- Unfolding `_helper` at zero fuel. -/
theorem helper_zero (files : List _GoogleApiFile) (path parent : String) :
    _helper 0 files path parent = [] := rfl

/-- Unfolding `_helper` at positive fuel: one scan of the record list, with
descents at one unit less fuel. -/
theorem helper_succ (fuel : Nat) (files : List _GoogleApiFile) (path parent : String) :
    _helper (fuel + 1) files path parent =
      _helper_go (fun p q => _helper fuel files p q) files path parent := rfl

/-- The pre-order listing of a forest is the concatenation of the pre-order
listings of its trees. -/
theorem preorderList_eq_flatten :
    ∀ (cs : List GoogleDriveFile), preorderList cs = (cs.map preorder).flatten := by
  intro cs
  induction cs with
  | nil => simp [preorderList]
  | cons c rest ih => simp [preorderList, ih]

/-- `walk_tree` threads the callback through the nodes of the tree exactly
as a left fold over the pre-order listing. -/
theorem walk_tree_eq_foldl {σ : Type u} :
    ∀ (t : GoogleDriveFile) (callback : σ → GoogleDriveFile → σ) (s : σ),
      walk_tree t callback s = (preorder t).foldl callback s := by
  refine walk_tree.induct
    (fun t callback s => walk_tree t callback s = (preorder t).foldl callback s)
    (fun cs callback s => walkChildren cs callback s = (preorderList cs).foldl callback s)
    ?_ ?_ ?_
  · intro root callback s h2
    rw [walk_tree, preorder, List.foldl_cons, h2]
  · intro callback s
    rw [walkChildren, preorderList, List.foldl_nil]
  · intro callback s c rest h1 h2
    rw [walkChildren, preorderList, List.foldl_append, h2, h1]

/-- The children loop of `walk_tree` is a left fold over the pre-order
listing of the forest. -/
theorem walkChildren_eq_foldl {σ : Type u} :
    ∀ (cs : List GoogleDriveFile) (callback : σ → GoogleDriveFile → σ) (s : σ),
      walkChildren cs callback s = (preorderList cs).foldl callback s := by
  refine walkChildren.induct
    (fun t callback s => walk_tree t callback s = (preorder t).foldl callback s)
    (fun cs callback s => walkChildren cs callback s = (preorderList cs).foldl callback s)
    ?_ ?_ ?_
  · intro root callback s h2
    rw [walk_tree, preorder, List.foldl_cons, h2]
  · intro callback s
    rw [walkChildren, preorderList, List.foldl_nil]
  · intro callback s c rest h1 h2
    rw [walkChildren, preorderList, List.foldl_append, h2, h1]

/-- Pre-order lists every node with its multiplicity in the tree. -/
theorem count_preorder (x : GoogleDriveFile) :
    ∀ (t : GoogleDriveFile), (preorder t).count x = occCount x t := by
  refine preorder.induct
    (fun t => (preorder t).count x = occCount x t)
    (fun cs => (preorderList cs).count x = occCountList x cs)
    ?_ ?_ ?_
  · intro t h2
    rw [preorder, occCount, List.count_cons, h2]
    by_cases hx : x = t
    · simp [hx, Nat.add_comm]
    · have : ¬ (t == x) = true := by
        simp only [beq_iff_eq]
        intro h; exact hx h.symm
      simp [hx, this]
  · simp [preorderList, occCountList]
  · intro c rest h1 h2
    rw [preorderList, occCountList, List.count_append, h1, h2]

/-! ### Termination of the traversal and of the builder -/

/-- A tree has positive height. -/
theorem depth_pos (t : GoogleDriveFile) : 0 < depth t := by
  rw [depth]; omega

/-- The height of a forest bounds the height of each of its trees. -/
theorem depth_le_depthList {c : GoogleDriveFile} :
    ∀ {cs : List GoogleDriveFile}, c ∈ cs → depth c ≤ depthList cs := by
  intro cs h
  induction cs with
  | nil => simp at h
  | cons d rest ih =>
    rw [depthList]
    rcases List.mem_cons.mp h with h | h
    · subst h; exact le_max_left _ _
    · exact le_trans (ih h) (le_max_right _ _)

/-- The children loop of the fuel-bounded walk succeeds and agrees with the
unbounded walk whenever the fuel covers every child subtree. -/
theorem walkChildrenGo_eq {σ : Type u} (callback : σ → GoogleDriveFile → σ) (fuel : Nat)
    (hrec : ∀ (t : GoogleDriveFile) (s : σ), depth t ≤ fuel →
      walkTreeFuel callback fuel t s = some (walk_tree t callback s)) :
    ∀ (cs : List GoogleDriveFile) (s : σ), (∀ c ∈ cs, depth c ≤ fuel) →
      walkChildrenGo (fun c s' => walkTreeFuel callback fuel c s') cs s =
        some (walkChildren cs callback s) := by
  intro cs
  induction cs with
  | nil => intro s _; rw [walkChildrenGo, walkChildren]
  | cons c rest ih =>
    intro s h
    rw [walkChildrenGo, walkChildren]
    rw [hrec c s (h c (List.mem_cons_self _ _))]
    exact ih _ (fun d hd => h d (List.mem_cons_of_mem _ hd))

/-- The fuel-bounded walk succeeds, and computes the same state as the
unbounded `walk_tree`, whenever the fuel is at least the height of the
tree. -/
theorem walkTreeFuel_eq {σ : Type u} (callback : σ → GoogleDriveFile → σ) :
    ∀ (fuel : Nat) (t : GoogleDriveFile) (s : σ), depth t ≤ fuel →
      walkTreeFuel callback fuel t s = some (walk_tree t callback s) := by
  intro fuel
  induction fuel with
  | zero => intro t s h; have := depth_pos t; omega
  | succ fuel ih =>
    intro t s h
    rw [walkTreeFuel, walk_tree]
    apply walkChildrenGo_eq callback fuel ih
    intro c hc
    have h1 := depth_le_depthList hc
    rw [depth] at h
    omega

/-- The helper scan only depends on the values of the descent function at
the records that match the parent. -/
theorem helper_go_congr {r1 r2 : String → String → List GoogleDriveFile} {path parent : String} :
    ∀ {scan : List _GoogleApiFile},
      (∀ f ∈ scan, parent ∈ f.parents → ∀ pth, r1 pth f.id = r2 pth f.id) →
      _helper_go r1 scan path parent = _helper_go r2 scan path parent := by
  intro scan h
  induction scan with
  | nil => rfl
  | cons f rest ih =>
    rw [_helper_go, _helper_go]
    have hrest := ih (fun g hg => h g (List.mem_cons_of_mem _ hg))
    by_cases hp : parent ∈ f.parents
    · rw [if_pos hp, if_pos hp]
      by_cases hm : _parse_mime_type f.mime_type = MimeType.OtherFile
      · rw [if_pos hm, if_pos hm, hrest]
      · rw [if_neg hm, if_neg hm, hrest,
          h f (List.mem_cons_self _ _) hp (path ++ "/" ++ f.name)]
    · rw [if_neg hp, if_neg hp, hrest]

/-- Stability of `_helper` in the fuel: when every descending parent chain
from `p` is shorter than `n`, any two fuels of at least `n` compute the same
forest. This is the sense in which the unbounded Python recursion terminates
and is computed by the fuel embedding. -/
theorem helper_stable {files : List _GoogleApiFile} :
    ∀ (n fuel₁ fuel₂ : Nat) (path p : String),
      (∀ l, ParentChain files p l → l.length < n) →
      n ≤ fuel₁ → n ≤ fuel₂ →
      _helper fuel₁ files path p = _helper fuel₂ files path p := by
  intro n
  induction n using Nat.strong_induction_on with
  | _ n ih =>
    intro fuel₁ fuel₂ path p hb h1 h2
    have hn : 0 < n := by
      have := hb [] ParentChain.nil
      omega
    obtain ⟨k₁, rfl⟩ : ∃ k, fuel₁ = k + 1 := ⟨fuel₁ - 1, by omega⟩
    obtain ⟨k₂, rfl⟩ : ∃ k, fuel₂ = k + 1 := ⟨fuel₂ - 1, by omega⟩
    rw [helper_succ, helper_succ]
    apply helper_go_congr
    intro f hf hp pth
    have hn2 : 2 ≤ n := by
      have := hb [f] (ParentChain.cons hf hp ParentChain.nil)
      simp at this; omega
    apply ih (n - 1) (by omega)
    · intro l hl
      have := hb (f :: l) (ParentChain.cons hf hp hl)
      simp at this; omega
    · omega
    · omega

/-- Every record of a descending parent chain belongs to the listing. -/
theorem chain_subset {files : List _GoogleApiFile} {p : String} {l : List _GoogleApiFile}
    (h : ParentChain files p l) : l ⊆ files := by
  induction h with
  | nil => exact List.nil_subset _
  | cons hf _ _ ih => exact List.cons_subset.mpr ⟨hf, ih⟩

/-- Under an acyclic parent graph, a descending chain is not longer than the
listing itself. -/
theorem chain_length_lt {files : List _GoogleApiFile} (hac : ParentAcyclic files)
    {p : String} {l : List _GoogleApiFile} (h : ParentChain files p l) :
    l.length < files.length + 1 := by
  have hnd := hac p l h
  have hsp := List.Nodup.subperm hnd (chain_subset h)
  have := List.Subperm.length_le hsp
  omega

/-- A strictly decreasing rank function on the parent graph certifies
acyclicity: no chain can revisit a record. -/
theorem parentAcyclic_of_rank (files : List _GoogleApiFile) (rank : String → Nat)
    (hr : ∀ f ∈ files, ∀ p ∈ f.parents, rank f.id < rank p) : ParentAcyclic files := by
  have aux : ∀ (p : String) (l : List _GoogleApiFile), ParentChain files p l →
      (∀ g ∈ l, rank g.id < rank p) ∧ l.Nodup := by
    intro p l h
    induction h with
    | nil => exact ⟨by simp, List.nodup_nil⟩
    | cons hf hp hl ih =>
      rename_i q f l'
      refine ⟨?_, ?_⟩
      · intro g hg
        rcases List.mem_cons.mp hg with hg | hg
        · subst hg; exact hr g hf q hp
        · exact lt_trans (ih.1 g hg) (hr f hf q hp)
      · refine List.nodup_cons.mpr ⟨?_, ih.2⟩
        intro hmem
        exact absurd (ih.1 f hmem) (lt_irrefl _)
  intro p l h
  exact (aux p l h).2

/-- Every node of a tree is the root or the second component of one of the
tree's parent-child pairs. -/
theorem mem_preorder_parent :
    ∀ (t : GoogleDriveFile) (n : GoogleDriveFile), n ∈ preorder t →
      n = t ∨ ∃ m, (m, n) ∈ parentChildPairs t := by
  refine preorder.induct
    (fun t => ∀ n, n ∈ preorder t → n = t ∨ ∃ m, (m, n) ∈ parentChildPairs t)
    (fun cs => ∀ n, n ∈ preorderList cs →
      (∃ c ∈ cs, n = c) ∨ ∃ m, (m, n) ∈ pairsList cs)
    ?_ ?_ ?_
  · intro t ihcs n hn
    rw [preorder] at hn
    rcases List.mem_cons.mp hn with hn | hn
    · exact Or.inl hn
    · rcases ihcs n hn with ⟨c, hc, hceq⟩ | ⟨m, hm⟩
      · refine Or.inr ⟨t, ?_⟩
        rw [parentChildPairs]
        exact List.mem_append.mpr (Or.inl (List.mem_map.mpr ⟨c, hc, by rw [hceq]⟩))
      · refine Or.inr ⟨m, ?_⟩
        rw [parentChildPairs]
        exact List.mem_append.mpr (Or.inr hm)
  · intro n hn
    simp [preorderList] at hn
  · intro c rest ih1 ih2 n hn
    rw [preorderList] at hn
    rcases List.mem_append.mp hn with hn | hn
    · rcases ih1 n hn with hceq | ⟨m, hm⟩
      · exact Or.inl ⟨c, List.mem_cons_self _ _, hceq⟩
      · refine Or.inr ⟨m, ?_⟩
        rw [pairsList]
        exact List.mem_append.mpr (Or.inl hm)
    · rcases ih2 n hn with ⟨d, hd, hdeq⟩ | ⟨m, hm⟩
      · exact Or.inl ⟨d, List.mem_cons_of_mem _ hd, hdeq⟩
      · refine Or.inr ⟨m, ?_⟩
        rw [pairsList]
        exact List.mem_append.mpr (Or.inr hm)

/-! ### Tree-level provenance and the children characterization -/

/-- When the fuel exceeds the length of every descending chain, every
`Folder` node of the forest built by `_helper` has as children ids exactly
the ids of the records that match it and survive the kind filter, in listing
order. -/
theorem folder_children_ids {files : List _GoogleApiFile} :
    ∀ (fuel : Nat) (path p : String),
      (∀ l, ParentChain files p l → l.length < fuel) →
      ∀ n ∈ preorderList (_helper fuel files path p), n.mime = MimeType.Folder →
        n.children.map (fun c => c.id) =
          (files.filter (fun f => decide (n.id ∈ f.parents) &&
            !(_parse_mime_type f.mime_type == MimeType.OtherFile))).map (fun f => f.id) := by
  intro fuel
  induction fuel with
  | zero =>
    intro path p hb n hn
    exfalso
    have := hb [] ParentChain.nil
    omega
  | succ fuel ih =>
    intro path p hb n hn hf
    obtain ⟨t, htmem, hn⟩ := mem_preorderList.mp hn
    rw [preorder] at hn
    rcases List.mem_cons.mp hn with hteq | hn
    · subst hteq
      have hch := mem_helper_children htmem hf
      obtain ⟨f, hfm, hid, _, _, _, _, hp, _⟩ := mem_helper htmem
      have hfuel : 1 ≤ fuel := by
        have := hb [f] (ParentChain.cons hfm hp ParentChain.nil)
        simp at this; omega
      obtain ⟨k, rfl⟩ : ∃ k, fuel = k + 1 := ⟨fuel - 1, by omega⟩
      rw [hch, helper_succ, map_id_helper_go]
    · by_cases hfold : t.mime = MimeType.Folder
      · rw [mem_helper_children htmem hfold] at hn
        obtain ⟨f, hfm, hid, _, _, _, _, hp, _⟩ := mem_helper htmem
        refine ih _ t.id ?_ n hn hf
        intro l hl
        rw [hid] at hl
        have := hb (f :: l) (ParentChain.cons hfm hp hl)
        simp at this; omega
      · obtain ⟨f, _, _, _, _, _, _, _, h5⟩ := mem_helper htmem
        rw [h5 hfold] at hn
        simp [preorderList] at hn

/-- A successful `get_directory` means some record of the listing carries the
requested name, the first such record is the root, and the result is
`_build_tree` on it. -/
theorem get_directory_ok {files : List _GoogleApiFile} {root_name : String}
    {T : GoogleDriveFile} (h : get_directory files root_name = Except.ok T) :
    ∃ r ∈ files, r.name = root_name ∧ T = _build_tree files r := by
  rw [get_directory] at h
  cases hfind : files.find? (fun f => f.name == root_name) with
  | none => rw [hfind] at h; cases h
  | some r =>
    rw [hfind] at h
    cases h
    exact ⟨r, List.mem_of_find?_eq_some hfind, by simpa using List.find?_some hfind, rfl⟩

/-- No node of a built tree has kind `OtherFile`: the root is forced to
`Folder` and the helper scan skips `OtherFile` records. -/
theorem build_tree_no_other (files : List _GoogleApiFile) (root : _GoogleApiFile) :
    ∀ n ∈ preorder (_build_tree files root), n.mime ≠ MimeType.OtherFile := by
  intro n hn
  rw [preorder] at hn
  rcases List.mem_cons.mp hn with hne | hn
  · rw [hne, _build_tree]
    intro hcon
    cases hcon
  · simp only [_build_tree] at hn
    obtain ⟨f, _, _, _, _, h4, _⟩ := mem_preorderList_helper _ _ _ n hn
    exact h4

/-- Every node of a built tree is the root node or is built from some record
of the listing, inheriting its id and parsed kind. -/
theorem build_tree_node_src (files : List _GoogleApiFile) (root : _GoogleApiFile) :
    ∀ n ∈ preorder (_build_tree files root),
      n = _build_tree files root ∨
        ∃ f ∈ files, n.id = f.id ∧ n.mime = _parse_mime_type f.mime_type := by
  intro n hn
  rw [preorder] at hn
  rcases List.mem_cons.mp hn with hne | hn
  · exact Or.inl hne
  · simp only [_build_tree] at hn
    obtain ⟨f, hf, h1, _, h3, _, _⟩ := mem_preorderList_helper _ _ _ n hn
    exact Or.inr ⟨f, hf, h1, h3⟩

/-- The first component of any parent-child pair of a tree is a node of that
tree. -/
theorem pairs_fst_mem_tree :
    ∀ (t : GoogleDriveFile) (pr : GoogleDriveFile × GoogleDriveFile),
      pr ∈ parentChildPairs t → pr.1 ∈ preorder t := by
  refine preorder.induct
    (fun t => ∀ pr, pr ∈ parentChildPairs t → pr.1 ∈ preorder t)
    (fun cs => ∀ pr, pr ∈ pairsList cs → pr.1 ∈ preorderList cs)
    ?_ ?_ ?_
  · intro t ih pr hpr
    rw [parentChildPairs] at hpr
    rw [preorder]
    rcases List.mem_append.mp hpr with hpr | hpr
    · obtain ⟨c, _, hc⟩ := List.mem_map.mp hpr
      have : pr.1 = t := by rw [← hc]
      rw [this]
      exact List.mem_cons_self _ _
    · exact List.mem_cons_of_mem _ (ih pr hpr)
  · intro pr hpr
    simp [pairsList] at hpr
  · intro c rest ih1 ih2 pr hpr
    rw [pairsList] at hpr
    rw [preorderList]
    rcases List.mem_append.mp hpr with hpr | hpr
    · exact List.mem_append.mpr (Or.inl (ih1 pr hpr))
    · exact List.mem_append.mpr (Or.inr (ih2 pr hpr))

/-- Every parent-child pair of a built tree has a child built from a record
whose `parents` contain the parent node's id. -/
theorem build_tree_pairs (files : List _GoogleApiFile) (root : _GoogleApiFile) :
    ∀ pr ∈ parentChildPairs (_build_tree files root),
      ∃ f ∈ files, pr.2.id = f.id ∧ pr.2.mime = _parse_mime_type f.mime_type ∧
        pr.1.id ∈ f.parents := by
  intro pr hpr
  rw [parentChildPairs] at hpr
  rcases List.mem_append.mp hpr with hpr | hpr
  · obtain ⟨c, hc, hceq⟩ := List.mem_map.mp hpr
    simp only [_build_tree] at hc
    obtain ⟨f, hf, h1, _, h3, _, _, hp, _⟩ := mem_helper hc
    have h2 : pr.2 = c := by rw [← hceq]
    have hfst : pr.1 = _build_tree files root := by rw [← hceq]
    refine ⟨f, hf, ?_, ?_, ?_⟩
    · rw [h2]; exact h1
    · rw [h2]; exact h3
    · rw [hfst]; exact hp
  · simp only [_build_tree] at hpr
    obtain ⟨hpath, f, hf, h1, _, h3, hp⟩ := pairs_helper _ _ _ pr hpr
    exact ⟨f, hf, h1, h3, hp⟩

/-! ### Concrete inputs used by the scenario, witnesses and counterexamples -/

/-- The five-record listing of the end-to-end scenario of the spec, with the
scenario's folder/document/shortcut kinds spelled as the raw provider tags
that `_parse_mime_type` recognizes. -/
def exampleFiles : List _GoogleApiFile :=
  [_GoogleApiFile.mk "1" "Root" "application/vnd.google-apps.folder" [],
   _GoogleApiFile.mk "2" "Doc1" "application/vnd.google-apps.document" ["1"],
   _GoogleApiFile.mk "3" "Sub" "application/vnd.google-apps.folder" ["1"],
   _GoogleApiFile.mk "4" "Doc2" "application/vnd.google-apps.document" ["3"],
   _GoogleApiFile.mk "5" "Ignore" "application/vnd.google-apps.shortcut" ["1"]]

/-- The root record of the scenario listing. -/
def exampleRoot : _GoogleApiFile :=
  _GoogleApiFile.mk "1" "Root" "application/vnd.google-apps.folder" []

/-- The `Doc1` node of the scenario tree. -/
def exDoc1 : GoogleDriveFile :=
  GoogleDriveFile.mk "2" "Doc1" MimeType.Document "Root" []

/-- The `Doc2` node of the scenario tree. -/
def exDoc2 : GoogleDriveFile :=
  GoogleDriveFile.mk "4" "Doc2" MimeType.Document "Root/Sub" []

/-- The `Sub` node of the scenario tree. -/
def exSub : GoogleDriveFile :=
  GoogleDriveFile.mk "3" "Sub" MimeType.Folder "Root" [exDoc2]

/-- The tree the builder produces on the scenario listing. -/
def exampleTree : GoogleDriveFile :=
  GoogleDriveFile.mk "1" "Root" MimeType.Folder "" [exDoc1, exSub]

/-! ### The claims -/

/-- C1: on the five-record scenario input, `get_directory` succeeds and
produces exactly the expected tree: the root's children are Doc1 and Sub,
both with path `"Root"`, in that order; Sub's children are exactly Doc2 with
path `"Root/Sub"`; the shortcut record `Ignore` appears nowhere in the tree;
and walking the tree visits Root, Doc1, Sub, Doc2 in that order. -/
theorem claim_C1_end_to_end_scenario :
    get_directory exampleFiles "Root" = Except.ok exampleTree ∧
    exampleTree.children.map (fun c => (c.name, c.path)) =
      [("Doc1", "Root"), ("Sub", "Root")] ∧
    exampleTree.children.map (fun c => c.children.map (fun d => (d.name, d.path))) =
      [[], [("Doc2", "Root/Sub")]] ∧
    (preorder exampleTree).map (fun n => n.name) = ["Root", "Doc1", "Sub", "Doc2"] ∧
    "Ignore" ∉ (preorder exampleTree).map (fun n => n.name) ∧
    walk_tree exampleTree (fun acc n => acc ++ [n.name]) [] =
      ["Root", "Doc1", "Sub", "Doc2"] := by
  have hpre : (preorder exampleTree).map (fun n => n.name) =
      ["Root", "Doc1", "Sub", "Doc2"] := by
    simp [exampleTree, exDoc1, exSub, exDoc2, preorder, preorderList]
  refine ⟨rfl, rfl, rfl, hpre, ?_, ?_⟩
  · rw [hpre]; decide
  · simp [exampleTree, exDoc1, exSub, exDoc2, walk_tree, walkChildren]

/-- C3: for every tree and every callback, the walk threads the callback
through the nodes exactly as a left fold over the pre-order listing; that
listing is the node itself followed by the child subtrees' listings,
contiguously and in children order (depth-first pre-order, not
breadth-first); and it contains every node of the tree with its exact
multiplicity — each node is visited exactly once. -/
theorem claim_C3_walk_preorder {σ : Type u} :
    ∀ (t : GoogleDriveFile) (callback : σ → GoogleDriveFile → σ) (s : σ),
      walk_tree t callback s = (preorder t).foldl callback s ∧
      preorder t = t :: (t.children.map preorder).flatten ∧
      (∀ x, (preorder t).count x = occCount x t) := by
  intro t callback s
  refine ⟨walk_tree_eq_foldl t callback s, ?_, fun x => count_preorder x t⟩
  rw [preorder, preorderList_eq_flatten]

/-- C5: when no record of the listing bears the requested root name (exact,
case-sensitive comparison), `get_directory` reports `RootNotFound` — the
modelled fatal print-and-exit-nonzero condition — and returns no partial
tree: the result is exactly the error. -/
theorem claim_C5_root_not_found (files : List _GoogleApiFile) (root_name : String)
    (h : ∀ f ∈ files, f.name ≠ root_name) :
    get_directory files root_name =
      Except.error (ArchiverError.RootNotFound root_name) := by
  rw [get_directory]
  have hnone : files.find? (fun f => f.name == root_name) = none := by
    rw [List.find?_eq_none]
    intro f hf
    simp [h f hf]
  rw [hnone]

/-- C5 witness: the scenario listing has no record named "Nope", and the
lookup fails with `RootNotFound "Nope"`. -/
theorem claim_C5_witness :
    get_directory exampleFiles "Nope" =
      Except.error (ArchiverError.RootNotFound "Nope") :=
  claim_C5_root_not_found exampleFiles "Nope" (by decide)

/-- C6: in every built tree, a node with at least one child is a `Folder`,
and every `Document` node has no children — even if some record lists a
document's id among its parents, the document node is never expanded. -/
theorem claim_C6_folders_internal (files : List _GoogleApiFile) (root : _GoogleApiFile) :
    ∀ n ∈ preorder (_build_tree files root),
      (n.children ≠ [] → n.mime = MimeType.Folder) ∧
      (n.mime = MimeType.Document → n.children = []) := by
  intro n hn
  rw [preorder] at hn
  rcases List.mem_cons.mp hn with hne | hn
  · rw [hne]
    refine ⟨fun _ => rfl, fun hcon => ?_⟩
    rw [_build_tree] at hcon
    cases hcon
  · simp only [_build_tree] at hn
    obtain ⟨f, _, _, _, _, _, h5⟩ := mem_preorderList_helper _ _ _ n hn
    refine ⟨?_, ?_⟩
    · intro hne
      by_contra hnf
      exact hne (h5 hnf)
    · intro hdoc
      apply h5
      rw [hdoc]
      intro hcon
      cases hcon

/-- C6 witness: the claim instantiated at the scenario root node, which has
children and kind `Folder`, so both implications are exercised with their
hypotheses satisfiable. -/
theorem claim_C6_witness :
    (exampleTree.children ≠ [] → exampleTree.mime = MimeType.Folder) ∧
    (exampleTree.mime = MimeType.Document → exampleTree.children = []) := by
  have hmem : exampleTree ∈ preorder (_build_tree exampleFiles exampleRoot) := by
    have hb : _build_tree exampleFiles exampleRoot = exampleTree := rfl
    rw [hb]
    exact self_mem_preorder _
  exact claim_C6_folders_internal exampleFiles exampleRoot exampleTree hmem

/-- C10: the kind mapping recognizes exactly the raw folder tag as `Folder`
and exactly the raw document tag as `Document`; every other raw tag maps to
`OtherFile`; and no node of any built tree carries the `OtherFile` kind, so
such records are pruned. -/
theorem claim_C10_kind_mapping :
    _parse_mime_type "application/vnd.google-apps.folder" = MimeType.Folder ∧
    _parse_mime_type "application/vnd.google-apps.document" = MimeType.Document ∧
    (∀ s : String, s ≠ "application/vnd.google-apps.folder" →
      s ≠ "application/vnd.google-apps.document" →
      _parse_mime_type s = MimeType.OtherFile) ∧
    (∀ (files : List _GoogleApiFile) (root : _GoogleApiFile),
      ∀ n ∈ preorder (_build_tree files root), n.mime ≠ MimeType.OtherFile) := by
  refine ⟨rfl, rfl, ?_, build_tree_no_other⟩
  intro s h1 h2
  rw [_parse_mime_type, if_neg h1, if_neg h2]

/-- C10 witness: a spreadsheet tag (neither the folder nor the document tag)
maps to `OtherFile`, and a concrete node of the scenario tree has a
non-`OtherFile` kind. -/
theorem claim_C10_witness :
    _parse_mime_type "application/vnd.google-apps.spreadsheet" = MimeType.OtherFile ∧
    exDoc1.mime ≠ MimeType.OtherFile := by
  refine ⟨claim_C10_kind_mapping.2.2.1 _ (by decide) (by decide), ?_⟩
  refine claim_C10_kind_mapping.2.2.2 exampleFiles exampleRoot exDoc1 ?_
  have hb : _build_tree exampleFiles exampleRoot = exampleTree := rfl
  rw [hb, preorder]
  refine List.mem_cons_of_mem _ ?_
  have hc : exampleTree.children = [exDoc1, exSub] := rfl
  rw [hc, preorderList, preorder]
  exact List.mem_append.mpr (Or.inl (List.mem_cons_self _ _))

/-- Listing whose selected root has the empty string as name; used to refute
the literal "empty path means root" reading of the path invariant. -/
def c2Files : List _GoogleApiFile :=
  [_GoogleApiFile.mk "1" "" "application/vnd.google-apps.folder" [],
   _GoogleApiFile.mk "2" "Sub" "application/vnd.google-apps.folder" ["1"],
   _GoogleApiFile.mk "3" "Doc" "application/vnd.google-apps.document" ["2"]]

/-- The document node built from `c2Files`. -/
def c2Doc : GoogleDriveFile := GoogleDriveFile.mk "3" "Doc" MimeType.Document "/Sub" []

/-- The folder node built from `c2Files`: a non-root node with empty path. -/
def c2Sub : GoogleDriveFile := GoogleDriveFile.mk "2" "Sub" MimeType.Folder "" [c2Doc]

/-- The tree built from `c2Files` with root name `""`. -/
def c2Tree : GoogleDriveFile := GoogleDriveFile.mk "1" "" MimeType.Folder "" [c2Sub]

/-- C2 counterexample: when the record selected as root is named `""`, the
builder returns a tree in which the non-root folder `Sub` has empty path,
and the path of Sub's child is `"/Sub"`, not Sub's name — so the claimed
formula, whose branch condition is "p.path is the empty string (p is the
root)", fails on a tree returned by the builder. -/
theorem claim_C2_counterexample :
    get_directory c2Files "" = Except.ok c2Tree ∧
    (c2Sub, c2Doc) ∈ parentChildPairs c2Tree ∧
    c2Sub.id ≠ c2Tree.id ∧ c2Doc.id ≠ c2Tree.id ∧
    c2Sub.path = "" ∧
    c2Doc.path ≠ c2Sub.name := by
  refine ⟨rfl, ?_, by decide, by decide, rfl, by decide⟩
  have hp : parentChildPairs c2Tree = [(c2Tree, c2Sub), (c2Sub, c2Doc)] := by
    simp [c2Tree, c2Sub, c2Doc, parentChildPairs, pairsList]
  rw [hp]
  exact List.mem_cons_of_mem _ (List.mem_cons_self _ _)

/-- C2 (amended): provided the selected root's name is nonempty — so that an
empty path does identify the root — every parent-child pair `(p, c)` of a
built tree satisfies: `c.path = p.name` when `p.path` is empty, and
`c.path = p.path ++ "/" ++ p.name` otherwise. -/
theorem claim_C2_path_invariant (files : List _GoogleApiFile) (root : _GoogleApiFile)
    (hroot : root.name ≠ "") :
    ∀ pr ∈ parentChildPairs (_build_tree files root),
      pr.2.path = if pr.1.path = "" then pr.1.name
        else pr.1.path ++ "/" ++ pr.1.name := by
  intro pr hpr
  rw [parentChildPairs] at hpr
  rcases List.mem_append.mp hpr with hpr | hpr
  · obtain ⟨c, hc, hceq⟩ := List.mem_map.mp hpr
    have h1 : pr.1 = _build_tree files root := by rw [← hceq]
    have h2 : pr.2 = c := by rw [← hceq]
    simp only [_build_tree] at hc
    obtain ⟨f, _, _, _, _, _, h6, _, _⟩ := mem_helper hc
    rw [h1, h2]
    have hTpath : (_build_tree files root).path = "" := rfl
    rw [if_pos hTpath, h6]
    rfl
  · simp only [_build_tree] at hpr
    have hpath := (pairs_helper _ _ _ pr hpr).1
    have hfst := pairs_fst_mem_helper _ _ _ pr hpr
    have hne := path_ne_empty_helper _ _ _ hroot pr.1 hfst
    rw [if_neg hne, hpath]

/-- C2 witness: at the scenario input, whose root name "Root" is nonempty,
the pair (Sub, Doc2) satisfies the formula through its nonempty-path
branch. -/
theorem claim_C2_witness :
    exDoc2.path = if exSub.path = "" then exSub.name
      else exSub.path ++ "/" ++ exSub.name := by
  have hb : _build_tree exampleFiles exampleRoot = exampleTree := rfl
  have hmem : (exSub, exDoc2) ∈ parentChildPairs (_build_tree exampleFiles exampleRoot) := by
    rw [hb]
    have hp : parentChildPairs exampleTree =
        [(exampleTree, exDoc1), (exampleTree, exSub), (exSub, exDoc2)] := by
      simp [exampleTree, exDoc1, exSub, exDoc2, parentChildPairs, pairsList]
    rw [hp]
    exact List.mem_cons_of_mem _ (List.mem_cons_of_mem _ (List.mem_cons_self _ _))
  exact claim_C2_path_invariant exampleFiles exampleRoot (by decide) (exSub, exDoc2) hmem

/-- C7 counterexample: Doc1 is created as a direct child of the root, whose
parentPath is `""` and parentName is `"Root"`; the built path is `"Root"`,
the parent name itself, whereas the claimed formula — parentName omitted
from `parentPath ++ "/" ++ parentName` when parentPath is empty — would
leave `""` or `"/"`. -/
theorem claim_C7_counterexample :
    _build_tree exampleFiles exampleRoot = exampleTree ∧
    (exampleTree, exDoc1) ∈ parentChildPairs exampleTree ∧
    exampleTree.path = "" ∧
    exDoc1.path = exampleTree.name ∧
    exDoc1.path ≠ exampleTree.path ∧
    exDoc1.path ≠ exampleTree.path ++ "/" := by
  refine ⟨rfl, ?_, rfl, rfl, by decide, by decide⟩
  have hp : parentChildPairs exampleTree =
      [(exampleTree, exDoc1), (exampleTree, exSub), (exSub, exDoc2)] := by
    simp [exampleTree, exDoc1, exSub, exDoc2, parentChildPairs, pairsList]
  rw [hp]
  exact List.mem_cons_self _ _

/-- C7 (amended): each constructed node's path is
`parentPath ++ "/" ++ parentName`, except that for direct children of the
root (whose parentPath is empty) the parent path and the separator are
omitted, leaving exactly parentName. -/
theorem claim_C7_path_computation (files : List _GoogleApiFile) (root : _GoogleApiFile) :
    (∀ c ∈ (_build_tree files root).children, c.path = (_build_tree files root).name) ∧
    (∀ t ∈ (_build_tree files root).children, ∀ pr ∈ parentChildPairs t,
      pr.2.path = pr.1.path ++ "/" ++ pr.1.name) := by
  constructor
  · intro c hc
    simp only [_build_tree] at hc ⊢
    obtain ⟨f, _, _, _, _, _, h6, _, _⟩ := mem_helper hc
    exact h6
  · intro t ht pr hpr
    simp only [_build_tree] at ht
    have hmem : pr ∈ pairsList (_helper (files.length + 1) files root.name root.id) :=
      mem_pairsList.mpr ⟨t, ht, hpr⟩
    exact (pairs_helper _ _ _ pr hmem).1

/-- C7 witness: in the scenario tree, Doc1 (a direct child of the root) has
the root's name as path, and Doc2's path extends Sub's path with a slash and
Sub's name. -/
theorem claim_C7_witness :
    exDoc1.path = (_build_tree exampleFiles exampleRoot).name ∧
    exDoc2.path = exSub.path ++ "/" ++ exSub.name := by
  have h := claim_C7_path_computation exampleFiles exampleRoot
  constructor
  · refine h.1 exDoc1 ?_
    show exDoc1 ∈ [exDoc1, exSub]
    exact List.mem_cons_self _ _
  · refine h.2 exSub ?_ (exSub, exDoc2) ?_
    · show exSub ∈ [exDoc1, exSub]
      exact List.mem_cons_of_mem _ (List.mem_cons_self _ _)
    · have hp : parentChildPairs exSub = [(exSub, exDoc2)] := by
        simp [exSub, exDoc2, parentChildPairs, pairsList]
      rw [hp]
      exact List.mem_cons_self _ _

/-- Listing whose record selected as root has a shortcut kind (mapping to
`OtherFile`); used to show the root record escapes the kind pruning. -/
def c4Files : List _GoogleApiFile :=
  [_GoogleApiFile.mk "1" "Root" "application/vnd.google-apps.shortcut" [],
   _GoogleApiFile.mk "2" "Doc" "application/vnd.google-apps.document" ["1"]]

/-- The tree built from `c4Files`: the shortcut record becomes the root,
forced to `Folder` kind, and its child is expanded. -/
def c4Tree : GoogleDriveFile :=
  GoogleDriveFile.mk "1" "Root" MimeType.Folder ""
    [GoogleDriveFile.mk "2" "Doc" MimeType.Document "Root" []]

/-- C4 counterexample: record "1" has a raw kind that maps to `OtherFile`,
yet after selecting it as root the built tree contains a node with its id
(the root, forced to `Folder`), and the record "2" — whose only parent is
record "1" — appears as well. So "a record whose kind maps to Other appears
nowhere, and neither does a record having it as only parent" fails as
stated: the root record is exempt from pruning. -/
theorem claim_C4_counterexample :
    c4Files.map (fun f => (f.id, _parse_mime_type f.mime_type, f.parents)) =
      [("1", MimeType.OtherFile, []), ("2", MimeType.Document, ["1"])] ∧
    get_directory c4Files "Root" = Except.ok c4Tree ∧
    "1" ∈ (preorder c4Tree).map (fun n => n.id) ∧
    "2" ∈ (preorder c4Tree).map (fun n => n.id) := by
  have hp : (preorder c4Tree).map (fun n => n.id) = ["1", "2"] := by
    simp [c4Tree, preorder, preorderList]
  refine ⟨rfl, rfl, ?_, ?_⟩ <;> (rw [hp]; decide)

/-- C4 (amended): no node of a successfully built tree has kind `OtherFile`;
and provided record ids are unique, a record whose kind maps to `OtherFile`
and which is not the record selected as root — with unique ids, exactly the
records whose id differs from the returned root node's id — appears nowhere
in the tree, and neither does any record, itself not the selected one,
having it as its only parent. The exemption for the selected root record
(which the builder forces to `Folder`) is what the counterexample shows to
be necessary. -/
theorem claim_C4_other_excluded (files : List _GoogleApiFile) (root_name : String)
    (T : GoogleDriveFile) (hok : get_directory files root_name = Except.ok T)
    (hnd : (files.map (fun f => f.id)).Nodup)
    (f : _GoogleApiFile) (hf : f ∈ files)
    (hfm : _parse_mime_type f.mime_type = MimeType.OtherFile)
    (hfsel : f.id ≠ T.id)
    (g : _GoogleApiFile) (hg : g ∈ files) (hgp : g.parents = [f.id])
    (hgsel : g.id ≠ T.id) :
    (∀ n ∈ preorder T, n.mime ≠ MimeType.OtherFile) ∧
    (∀ n ∈ preorder T, n.id ≠ f.id ∧ n.id ≠ g.id) := by
  obtain ⟨r, _, _, hTeq⟩ := get_directory_ok hok
  subst hTeq
  have hinj := List.inj_on_of_nodup_map hnd
  have hroot_id : (_build_tree files r).id = r.id := rfl
  rw [hroot_id] at hfsel hgsel
  have hnotf : ∀ n ∈ preorder (_build_tree files r), n.id ≠ f.id := by
    intro n hn hid
    rcases build_tree_node_src files r n hn with hne | ⟨h, hh, hid2, hmime⟩
    · rw [hne, hroot_id] at hid
      exact hfsel hid.symm
    · have hhf := hinj hh hf (by rw [← hid2, hid])
      rw [hhf, hfm] at hmime
      exact build_tree_no_other files r n hn hmime
  refine ⟨build_tree_no_other files r, fun n hn => ⟨hnotf n hn, ?_⟩⟩
  intro hid
  rcases mem_preorder_parent _ n hn with hne | ⟨m, hm⟩
  · rw [hne, hroot_id] at hid
    exact hgsel hid.symm
  · obtain ⟨h2, hh2, hid3, _, hpar⟩ := build_tree_pairs files r (m, n) hm
    have hh2g := hinj hh2 hg (by rw [← hid3, hid])
    rw [hh2g, hgp] at hpar
    have hmid : m.id = f.id := by simpa using hpar
    have hmmem : m ∈ preorder (_build_tree files r) := pairs_fst_mem_tree _ (m, n) hm
    exact hnotf m hmmem hmid

/-- Listing with a non-root shortcut record ("2") and a document ("3") whose
only parent is that shortcut; both are pruned. -/
def c4wFiles : List _GoogleApiFile :=
  [_GoogleApiFile.mk "1" "Root" "application/vnd.google-apps.folder" [],
   _GoogleApiFile.mk "2" "Short" "application/vnd.google-apps.shortcut" ["1"],
   _GoogleApiFile.mk "3" "Doc" "application/vnd.google-apps.document" ["2"]]

/-- The tree built from `c4wFiles`: only the root survives. -/
def c4wTree : GoogleDriveFile := GoogleDriveFile.mk "1" "Root" MimeType.Folder "" []

/-- C4 witness: the amended claim applied to `c4wFiles` with the non-root
shortcut record "2" and its only-child document "3" (both with ids distinct
from the selected root's id "1"): the root node is not of `OtherFile` kind
and carries neither pruned id. -/
theorem claim_C4_witness :
    c4wTree.mime ≠ MimeType.OtherFile ∧
    (c4wTree.id ≠ ("2" : String) ∧ c4wTree.id ≠ ("3" : String)) := by
  have h := claim_C4_other_excluded c4wFiles "Root" c4wTree rfl (by decide)
    (_GoogleApiFile.mk "2" "Short" "application/vnd.google-apps.shortcut" ["1"]) (by decide)
    rfl (by decide)
    (_GoogleApiFile.mk "3" "Doc" "application/vnd.google-apps.document" ["2"]) (by decide)
    rfl (by decide)
  exact ⟨h.1 c4wTree (self_mem_preorder _), h.2 c4wTree (self_mem_preorder _)⟩

/-- C8: under the spec's input assumptions — record ids unique, parent graph
acyclic — every `Folder` node of the built tree has as children ids exactly
the ids of the records that list that folder's id among their `parents` and
survive the kind filter, in listing order. Hence a record naming several
folders of the tree among its parents is attached once under each such
folder (duplicated across branches, not deduplicated), and no record is
attached twice under any single node. -/
theorem claim_C8_attachment (files : List _GoogleApiFile) (root : _GoogleApiFile)
    (hnd : (files.map (fun f => f.id)).Nodup) (hac : ParentAcyclic files) :
    ∀ n ∈ preorder (_build_tree files root), n.mime = MimeType.Folder →
      n.children.map (fun c => c.id) =
        (files.filter (fun f => decide (n.id ∈ f.parents) &&
          !(_parse_mime_type f.mime_type == MimeType.OtherFile))).map (fun f => f.id) ∧
      (n.children.map (fun c => c.id)).Nodup := by
  intro n hn hf
  have hmain : n.children.map (fun c => c.id) =
      (files.filter (fun f => decide (n.id ∈ f.parents) &&
        !(_parse_mime_type f.mime_type == MimeType.OtherFile))).map (fun f => f.id) := by
    rw [preorder] at hn
    rcases List.mem_cons.mp hn with hne | hn
    · subst hne
      simp only [_build_tree]
      rw [helper_succ, map_id_helper_go]
    · simp only [_build_tree] at hn
      exact folder_children_ids (files.length + 1) root.name root.id
        (fun l hl => chain_length_lt hac hl) n hn hf
  refine ⟨hmain, ?_⟩
  rw [hmain]
  exact List.Nodup.sublist (List.Sublist.map _ (List.filter_sublist files)) hnd

/-- C8 witness: at the scenario input (ids unique, graph acyclic via the
explicit rank 2/1/0), the root's children ids are exactly the filtered
record ids, without duplicates. -/
theorem claim_C8_witness :
    exampleTree.children.map (fun c => c.id) =
      (exampleFiles.filter (fun f => decide (exampleTree.id ∈ f.parents) &&
        !(_parse_mime_type f.mime_type == MimeType.OtherFile))).map (fun f => f.id) ∧
    (exampleTree.children.map (fun c => c.id)).Nodup := by
  have hac : ParentAcyclic exampleFiles :=
    parentAcyclic_of_rank exampleFiles
      (fun s => if s = "1" then 2 else if s = "3" then 1 else 0) (by decide)
  have h := claim_C8_attachment exampleFiles exampleRoot (by decide) hac
  refine h exampleTree ?_ rfl
  have hb : _build_tree exampleFiles exampleRoot = exampleTree := rfl
  rw [hb]
  exact self_mem_preorder _

/-- C9: the walk terminates on every tree of the embedding (the fuel-bounded
walk succeeds and agrees with `walk_tree` once the fuel reaches the tree's
height), and the builder's recursion terminates on every listing whose
parent-pointer graph is acyclic: beyond `files.length`, the fuel no longer
matters — the recursion has stabilized. No cycle detection is performed
anywhere, so acyclicity is the precondition of the second part. -/
theorem claim_C9_termination :
    (∀ (σ : Type) (callback : σ → GoogleDriveFile → σ) (t : GoogleDriveFile) (s : σ)
      (fuel : Nat), depth t ≤ fuel →
        walkTreeFuel callback fuel t s = some (walk_tree t callback s)) ∧
    (∀ (files : List _GoogleApiFile) (path parent : String) (fuel₁ fuel₂ : Nat),
      ParentAcyclic files → files.length < fuel₁ → files.length < fuel₂ →
        _helper fuel₁ files path parent = _helper fuel₂ files path parent) := by
  constructor
  · intro σ callback t s fuel h
    exact walkTreeFuel_eq callback fuel t s h
  · intro files path parent fuel₁ fuel₂ hac h1 h2
    exact helper_stable (files.length + 1) fuel₁ fuel₂ path parent
      (fun l hl => chain_length_lt hac hl) (by omega) (by omega)

/-- C9 witness: fuel 3 (the scenario tree's height) suffices for the walk,
and on the acyclic scenario listing the builder computes the same forest at
fuels 6 and 7. -/
theorem claim_C9_witness :
    walkTreeFuel (fun (acc : List String) n => acc ++ [n.name]) 3 exampleTree [] =
      some (walk_tree exampleTree (fun acc n => acc ++ [n.name]) []) ∧
    _helper 6 exampleFiles "Root" "1" = _helper 7 exampleFiles "Root" "1" := by
  have hd2 : depth exDoc2 = 1 := by
    rw [depth, show exDoc2.children = ([] : List GoogleDriveFile) from rfl, depthList]
  have hd1 : depth exDoc1 = 1 := by
    rw [depth, show exDoc1.children = ([] : List GoogleDriveFile) from rfl, depthList]
  have hs : depth exSub = 2 := by
    rw [depth, show exSub.children = [exDoc2] from rfl, depthList, hd2, depthList]
    omega
  have ht : depth exampleTree = 3 := by
    rw [depth, show exampleTree.children = [exDoc1, exSub] from rfl, depthList, hd1,
      depthList, hs, depthList]
    omega
  constructor
  · exact claim_C9_termination.1 _ _ _ _ 3 ht.le
  · refine claim_C9_termination.2 exampleFiles "Root" "1" 6 7 ?_ (by decide) (by decide)
    exact parentAcyclic_of_rank exampleFiles
      (fun s => if s = "1" then 2 else if s = "3" then 1 else 0) (by decide)
